import Mathlib

/-!
Shallow embedding of src/virtual_courier.py (the VirtualCourierArchive
pipeline of olimal/slack-archive) together with proofs settling the frozen
claims about it.

Modelling conventions:
* Python strings are modelled as `List Char` (`Chars`); `chars` turns a
  Lean string literal into that representation.
* Python dict fields accessed with `.get(k)` are `Option` fields; fields
  accessed with `d[k]` (which raise `KeyError` when absent) are either
  required fields or produce an explicit error value.
* Fallible code returns `Except`; the error constructors name the Python
  exception they stand for.
* Calendar formatting (`epoch_to_datetime` + `strftime`) is kept abstract
  as a pair of functions (`TimeFmt`); no claim depends on the rendered
  timestamp values, only on their being carried along.
* The filesystem state that `cleanup` acts on is modelled as the list of
  files directly inside the output directory plus the list of descendant
  directory paths (component lists, in the top-down order `os.walk`
  yields them).
-/

/-- A Python string, modelled as its list of characters. -/
abbrev Chars := List Char

/-- Lean string literal to the `Chars` model. -/
def chars (s : String) : Chars := s.toList

deriving instance DecidableEq for Except

/-! ## Decimal rendering of a counter (Python `str(counter)`) -/

/-- One decimal digit character; `str()` renders digits 0-9. -/
def digChar (d : Nat) : Char := Char.ofNat (48 + d % 10)

/-- Numeric value of a digit character. -/
def charVal (c : Char) : Nat := c.toNat - 48

/-- Decimal rendering, most significant digit first, with structural
fuel: `fuel` bounds the number of digits emitted (`natChars` passes
`n + 1`, which always suffices since `n < 10 ^ (n + 1)`). -/
def natCharsAux : Nat → Nat → Chars
  | 0, _ => []
  | fuel + 1, n =>
    if n < 10 then [digChar n]
    else natCharsAux fuel (n / 10) ++ [digChar (n % 10)]

/-- Decimal rendering of a natural number, most significant digit first:
the embedding of Python `str(counter)` for a non-negative int. -/
def natChars (n : Nat) : Chars := natCharsAux (n + 1) n

/-- Value of a digit string, the left inverse of `natChars`. -/
def charsVal (l : Chars) : Nat := l.foldl (fun a c => 10 * a + charVal c) 0

/-! ## os.path.splitext and unique_filename (lines 33-42) -/

/-- Index of the last occurrence of a character, if any. -/
def lastIdxOf (c : Char) : Chars → Option Nat
  | [] => none
  | x :: xs =>
    match lastIdxOf c xs with
    | some i => some (i + 1)
    | none => if x = c then some 0 else none

/-- `os.path.splitext` for a separator-free filename (the inputs here are
attachment basenames): splits at the rightmost dot unless every character
before it is itself a dot (so ".bashrc" has no extension). -/
def splitext (s : Chars) : Chars × Chars :=
  match lastIdxOf '.' s with
  | none => (s, [])
  | some i =>
    if (s.take i).all (· = '.') then (s, []) else (s.take i, s.drop i)

/-- The candidate the while loop of `unique_filename` tries at counter `n`:
`split_filename + " (" + str(n) + ")" + ext`. -/
def candWithExt (split ext : Chars) (n : Nat) : Chars :=
  split ++ chars " (" ++ natChars n ++ chars ")" ++ ext

/-- The while loop of `unique_filename` (lines 38-41): keeps proposing
`split_filename + " (" + str(counter) + ")"` while the current name
collides. Fuel bounds the iterations; `unique_filename` supplies
`file_list.length + 1`, which provably suffices (see
`uniqueLoop_not_mem`). -/
def uniqueLoop (split ext : Chars) (fileList : List Chars) :
    Nat → Nat → Chars → Chars
  | 0, _, filename => filename ++ ext
  | fuel + 1, counter, filename =>
    if filename ++ ext ∈ fileList then
      uniqueLoop split ext fileList fuel (counter + 1)
        (split ++ chars " (" ++ natChars counter ++ chars ")")
    else filename ++ ext

/-- `unique_filename(orig_filename, file_list)` (lines 33-42). The
source also guards `if ext is None: ext = ''`; `os.path.splitext` always
returns a string, so that branch is dead and has no counterpart here. -/
def unique_filename (origFilename : Chars) (fileList : List Chars) : Chars :=
  let (filename, ext) := splitext origFilename
  uniqueLoop filename ext fileList (fileList.length + 1) 1 filename

/-! ## Whole-string replacement (Python `str.replace`)

`str.replace(old, new)` substitutes every non-overlapping occurrence of
`old`, scanning left to right and never rescanning inserted text.
`replaceAll` is that scan; `splitOnL` is the matching split of the string
at those same occurrences, used to state what "every occurrence" means. -/

/-- The scan of `str.replace` with structural fuel (`fuel` bounds the
number of scan steps; `s.length` always suffices, see
`replaceAll_eq_joinWith`): at each position, when the non-empty pattern
`p` starts here, emit `r` and resume after the occurrence — the skipped
suffix is `cs.drop (p.length - 1)`, which is `(c :: cs).drop p.length` —
otherwise keep the character and move on. -/
def replaceAllAux (p r : Chars) : Nat → Chars → Chars
  | _, [] => []
  | 0, s => s
  | fuel + 1, c :: cs =>
    if p ≠ [] ∧ p.isPrefixOf (c :: cs) then
      r ++ replaceAllAux p r fuel (cs.drop (p.length - 1))
    else c :: replaceAllAux p r fuel cs

/-- Python `text.replace(p, r)` for a non-empty pattern `p`: substitutes
every non-overlapping occurrence of `p`, scanning left to right and never
rescanning inserted text. The calls in `_normalize_text` always pass a
non-empty `p`; for an empty `p` this model returns the text unchanged. -/
def replaceAll (p r s : Chars) : Chars := replaceAllAux p r s.length s

/-- The split counterpart of the `replaceAllAux` scan, with the same
fuel discipline. -/
def splitOnLAux (p : Chars) : Nat → Chars → List Chars
  | _, [] => [[]]
  | 0, s => [s]
  | fuel + 1, c :: cs =>
    if p ≠ [] ∧ p.isPrefixOf (c :: cs) then
      [] :: splitOnLAux p fuel (cs.drop (p.length - 1))
    else
      let rest := splitOnLAux p fuel cs
      (c :: rest.headI) :: rest.tail

/-- The split of a string at the same non-overlapping occurrences of `p`
that `replaceAll` substitutes: joining the pieces with `p` restores the
string, and joining them with `r` is exactly `replaceAll p r`. -/
def splitOnL (p s : Chars) : List Chars := splitOnLAux p s.length s

/-- Joins pieces with a separator: `joinWith sep [a, b, c] = a ++ sep ++ b
++ sep ++ c`. -/
def joinWith (sep : Chars) : List Chars → Chars
  | [] => []
  | [x] => x
  | x :: y :: t => x ++ sep ++ joinWith sep (y :: t)

/-! ## Mention search (`re.search(r"<@[a-zA-Z0-9]*>", text)`, lines 227-231)

The pattern is literal `<@`, a greedy run of ASCII alphanumerics, then
literal `>`. Because `>` is not an alphanumeric, greedy matching never
backtracks: a match starts at a position exactly when `<@` is followed by
the maximal alphanumeric run and then `>`. `re.search` returns the
leftmost such match. -/

/-- The regex match anchored at the start of the given suffix, if any. -/
def mentionAt : Chars → Option Chars
  | '<' :: '@' :: rest =>
    match rest.dropWhile Char.isAlphanum with
    | '>' :: _ => some ('<' :: '@' :: (rest.takeWhile Char.isAlphanum ++ ['>']))
    | _ => none
  | _ => none

/-- Leftmost match of the mention pattern in the text (`re.search`). -/
def searchMention : Chars → Option Chars
  | [] => none
  | c :: cs =>
    match mentionAt (c :: cs) with
    | some m => some m
    | none => searchMention cs

/-! ## Text Normalizer (`_normalize_text`, lines 218-240) -/

/-- U+2019, the right single quotation mark. -/
def rsq : Char := Char.ofNat 8217

/-- U+2026, the horizontal ellipsis. -/
def ell : Char := Char.ofNat 8230

/-- U+0027, the plain ASCII apostrophe. -/
def apos : Char := Char.ofNat 39

/-- Lines 223-224: `text.replace("’", "'")` then
`text.replace("…", "...")`. -/
def decodeSpecials (text : Chars) : Chars :=
  replaceAll [ell] (chars "...") (replaceAll [rsq] [apos] text)

/-- First-match association-list lookup, the model of a Python dict built
by successive insertions of distinct keys. -/
def lookupA : List (Chars × Chars) → Chars → Option Chars
  | [], _ => none
  | (k, v) :: t, u => if k = u then some v else lookupA t u

/-- Lines 231-236: `user_id = result_text[2:-1]`, then
`self.members[user_id]` with the `KeyError` fallback to the raw id. -/
def mentionName (members : List (Chars × Chars)) (tok : Chars) : Chars :=
  let userId := (tok.drop 2).dropLast
  (lookupA members userId).getD userId

/-- `_normalize_text(text, possible_user_id)` (lines 218-240). Note the
source returns a value only inside the `if possible_user_id:` block; when
the flag is false the function falls off its end, which in Python returns
`None` — hence the `Option` result with `none` in that branch. -/
def normalizeText (members : List (Chars × Chars)) (possibleUserId : Bool)
    (text : Chars) : Option Chars :=
  let t := decodeSpecials text
  if possibleUserId then
    match searchMention t with
    | some tok => some (replaceAll tok ('@' :: mentionName members tok) t)
    | none => some t
  else none

/-! ## Raw records and the parsed Message model (section 3 of the spec) -/

/-- One entry of a raw message record's `files` list. Fields read with
`.get(...)` in the source are `Option`s. -/
structure RawFile where
  name? : Option Chars
  url_private_download? : Option Chars
  url_private? : Option Chars
deriving DecidableEq, Repr

/-- One raw message record of the channel history. `ts` is always present
on a history record and is read with `message["ts"]`; the other fields
are read with `.get(...)` except `username`, which line 195 reads as
`message["username"]` (a `KeyError` when absent). `files?` is `some`
exactly when `"files" in message.keys()`. -/
structure RawMsg where
  type? : Option Chars
  subtype? : Option Chars
  user? : Option Chars
  username? : Option Chars
  text? : Option Chars
  ts : Chars
  files? : Option (List RawFile)
deriving DecidableEq, Repr

/-- One parsed attachment (lines 185-189). -/
structure ParsedFile where
  filename : Chars
  url_download? : Option Chars
  url? : Option Chars
deriving DecidableEq, Repr

/-- The parsed Message dict (lines 205-215). `text` carries the result of
`_normalize_text(..., possible_user_id=True)`, which is an `Option` in
this embedding. -/
structure Message where
  message_id : Nat
  type? : Option Chars
  subtype? : Option Chars
  text : Option Chars
  user : Chars
  files : List ParsedFile
  file_dir : Chars
  timestamp_display : Chars
  timestamp : Chars
deriving DecidableEq, Repr

/-- The exceptions `_parse_message` can raise. -/
inductive ParseErr where
  /-- Line 197: `RuntimeError(f"No user for this message: ...")`. -/
  | noUser
  /-- Line 195: `KeyError` from `message["username"]` on a bot message
  without a `username` key. -/
  | keyErrUsername
  /-- Line 203: `AttributeError` from `None.replace` when
  `message.get("text")` is `None`. -/
  | noneText
deriving DecidableEq, Repr

/-- The two `strftime` renderings of `epoch_to_datetime(ts)` (lines
213-214), kept abstract: no claim depends on calendar arithmetic, only on
the rendered strings being carried into the Message. -/
structure TimeFmt where
  display : Chars → Chars
  sortable : Chars → Chars

/-- `os.path.join` for the relative second components the source builds. -/
def pathJoin (a b : Chars) : Chars :=
  if a = [] then b else a ++ '/' :: b

/-- Sender resolution, lines 190-201 of `_parse_message`, in source
order: `channel_join` first, then the botless `bot_message` case reading
`message["username"]`, then the no-user error, then the members lookup
with fallback to the raw identifier. -/
def resolveSenderCode (members : List (Chars × Chars)) (m : RawMsg) :
    Except ParseErr Chars :=
  if m.subtype? = some (chars "channel_join") then .ok (chars "Slackbot")
  else if m.user? = none ∧ m.subtype? = some (chars "bot_message") then
    match m.username? with
    | some u => .ok u
    | none => .error .keyErrUsername
  else
    match m.user? with
    | none => .error .noUser
    | some rawUser => .ok ((lookupA members rawUser).getD rawUser)

/-- Sender resolution in the priority order the claim states: explicit
bot username first, then the identity-map entry for the user identifier,
then the raw identifier, and only last the fixed system name for the
channel-join subtype (`none` when no rule applies). Stated from the
claim's words, to compare against `resolveSenderCode`. -/
def claimSenderPriority (members : List (Chars × Chars)) (m : RawMsg) :
    Option Chars :=
  match m.username? with
  | some u => some u
  | none =>
    match m.user? with
    | some rawUser => some ((lookupA members rawUser).getD rawUser)
    | none =>
      if m.subtype? = some (chars "channel_join") then some (chars "Slackbot")
      else none

/-- The attachment loop of `_parse_message` (lines 177-189): each file
name (or "Unknown" when absent) is deduplicated against the names already
assigned within this message. -/
def parseFiles (fs : List RawFile) : List ParsedFile :=
  fs.foldl (fun files f =>
    let filenameModified := f.name?.getD (chars "Unknown")
    let filename := unique_filename filenameModified (files.map (·.filename))
    files ++ [{ filename := filename
                url_download? := f.url_private_download?
                url? := f.url_private? }]) []

/-- `_parse_message(message, message_id)` (lines 175-216). -/
def parseMessage (members : List (Chars × Chars)) (tf : TimeFmt)
    (outputDir : Chars) (m : RawMsg) (messageId : Nat) :
    Except ParseErr Message :=
  let files := match m.files? with
    | some fs => parseFiles fs
    | none => []
  match resolveSenderCode members m with
  | .error e => .error e
  | .ok user =>
    match m.text? with
    | none => .error .noneText
    | some rawText =>
      .ok { message_id := messageId
            type? := m.type?
            subtype? := m.subtype?
            text := normalizeText members true rawText
            user := user
            files := files
            file_dir := pathJoin outputDir (chars "message_" ++ natChars messageId)
            timestamp_display := tf.display m.ts
            timestamp := tf.sortable m.ts }

/-- The loop body of `_set_messages` (lines 166-173) over an already
reversed history, carrying the 1-based index `enumerate` supplies. -/
def parseAll (members : List (Chars × Chars)) (tf : TimeFmt)
    (outputDir : Chars) : Nat → List RawMsg → Except ParseErr (List Message)
  | _, [] => .ok []
  | ind, m :: rest =>
    match parseMessage members tf outputDir m ind with
    | .error e => .error e
    | .ok md =>
      match parseAll members tf outputDir (ind + 1) rest with
      | .error e => .error e
      | .ok tl => .ok (md :: tl)

/-- `_set_messages` (lines 166-173): iterates over
`reversed(messages_raw)` with `enumerate`, parsing each record at id
`ind + 1`. -/
def setMessages (members : List (Chars × Chars)) (tf : TimeFmt)
    (outputDir : Chars) (rawHistory : List RawMsg) :
    Except ParseErr (List Message) :=
  parseAll members tf outputDir 1 rawHistory.reverse

/-! ## Identity Resolver (`_set_members`, lines 123-149) -/

/-- What `users_info` returns for one user: the short name
`user_data["name"]` (always present on a user object) and the profile's
real name, `none` when `user_data["profile"]["real_name"]` raises
`KeyError`. -/
structure UserData where
  profile_real_name? : Option Chars
  name : Chars

/-- The per-user body of `_set_members` (lines 133-148). The
`usersInfo` argument models `self.client.users_info`: `none` stands for a
`SlackApiError`, in which case the raw identifier is used (the source
also appends a line to `user_log.txt`, a diagnostic side effect with no
bearing on the returned mapping). -/
def resolveUser (usersInfo : Chars → Option UserData) (user : Chars) : Chars :=
  match usersInfo user with
  | none => user
  | some d =>
    match d.profile_real_name? with
    | none => d.name
    | some userName =>
      if userName = chars "Deactivated User" then d.name else userName

/-- Lines 126-130: the distinct user identifiers of the history, in first
appearance order. -/
def usersOf (messages : List RawMsg) : List Chars :=
  messages.foldl (fun users m =>
    match m.user? with
    | some u => if u ∈ users then users else users ++ [u]
    | none => users) []

/-- `_set_members` (lines 123-149): one entry per distinct user
identifier, resolved by `resolveUser`. -/
def setMembers (usersInfo : Chars → Option UserData)
    (messages : List RawMsg) : List (Chars × Chars) :=
  (usersOf messages).map (fun u => (u, resolveUser usersInfo u))

/-- The resolution policy in the words of the spec, clause by clause: use
the real display name when it exists and is not the literal
"Deactivated User"; otherwise the short name; when the lookup itself
fails, the raw identifier. Stated from the spec, to compare with the
source-derived `resolveUser`. -/
def specResolveUser (usersInfo : Chars → Option UserData) (user : Chars) :
    Chars :=
  match usersInfo user with
  | some d =>
    match d.profile_real_name? with
    | some realName =>
      if realName ≠ chars "Deactivated User" then realName else d.name
    | none => d.name
  | none => user

/-! ## CSV Renderer (`make_csv`, lines 262-284) -/

/-- One row of `csv_list`. `file` is the dict value placed in the row:
`none` models a Python `None` URL (written as an empty field by the csv
writer), `some []` the literal empty string of the no-attachment row. -/
structure CsvRow where
  sender : Chars
  timestamp : Chars
  text : Chars
  file : Option Chars
deriving DecidableEq, Repr

/-- The row dict of lines 277 and 279: sender, sortable timestamp, text
(empty string for a `None` text), and the given file field. -/
def csvRowOf (m : Message) (fileField : Option Chars) : CsvRow :=
  { sender := m.user
    timestamp := m.timestamp
    text := m.text.getD []
    file := fileField }

/-- The `csv_list` loop of `make_csv` (lines 267-279): per message, one
row per attachment when there are any, else a single row with an empty
file field. The surrounding writer (header and file output) carries no
further logic. -/
def make_csv_rows (messages : List Message) : List CsvRow :=
  messages.foldl (fun csvList m =>
    if m.files.length > 0 then
      m.files.foldl (fun acc f => acc ++ [csvRowOf m f.url?]) csvList
    else csvList ++ [csvRowOf m (some [])]) []

/-! ## Cleanup (`cleanup`, lines 359-365)

The output directory state is its list of direct files plus the list of
descendant directory paths, each a list of path components relative to
the output directory, recorded in the top-down order `os.walk` yields
them. `cleanup` materialises that list (minus the output directory
itself) and calls `shutil.rmtree` on each entry in order; `rmtree` on a
path that no longer exists raises `FileNotFoundError`. -/

/-- Output directory state: the files directly inside it and the
descendant directory paths in `os.walk` top-down order. -/
structure DirState where
  files : List Chars
  dirs : List (List Chars)
deriving DecidableEq, Repr

/-- `shutil.rmtree(d)`: removes the directory and everything below it,
failing when the directory does not exist. -/
def rmtree (p : List Chars) (dirs : List (List Chars)) :
    Except Unit (List (List Chars)) :=
  if p ∈ dirs then .ok (dirs.filter (fun q => !(p.isPrefixOf q)))
  else .error ()

/-- The removal loop of `cleanup` (lines 364-365): `rmtree` each listed
directory in order, stopping at the first failure. -/
def rmAll : List (List Chars) → List (List Chars) → Except Unit (List (List Chars))
  | dirs, [] => .ok dirs
  | dirs, p :: rest =>
    match rmtree p dirs with
    | .ok dirs2 => rmAll dirs2 rest
    | .error e => .error e

/-- `cleanup` (lines 359-365): walks the output directory, filters out
the directory itself (`os.walk` lists it first), and removes each
remaining listed directory in walk order. -/
def cleanup (s : DirState) : Except Unit DirState :=
  match rmAll s.dirs s.dirs with
  | .ok dirs => .ok { files := s.files, dirs := dirs }
  | .error e => .error e

/-! ## Publisher (`post`, lines 343-357) -/

/-- `str.lower()` (ASCII case folding suffices for the format names the
source compares against). -/
def strLower (s : Chars) : Chars := s.map Char.toLower

/-- What `post` needs of the archive: the two rendered file paths and the
outcome of `files_upload` for a given path. An `Except.error` value is a
`URLError` (the upload-transport failure the source catches); the error
payload carries its message. `post` performs no filesystem operation, so
the rendered files are untouched whatever the outcome. -/
structure PostEnv where
  csv_filepath : Chars
  pdf_filepath : Chars
  upload : Chars → Except Chars Unit

/-- Failures of `post`. -/
inductive PostErr where
  /-- Line 351: `RuntimeError` for a format other than csv or pdf. -/
  | badFormat
  /-- Line 357: the re-raised `URLError`. -/
  | urlError (e : Chars)
deriving DecidableEq, Repr

/-- The fixed support-escalation message of line 355. -/
def escalationMsg : Chars :=
  chars "An error occurred while uploading the file to this channel. Contact <@U03F805UUDC> for support."

/-- Lines 352-357: attempt the upload; on a `URLError` post the fixed
escalation message to the channel and re-raise. Returns the list of chat
messages posted and the outcome. -/
def postUpload (env : PostEnv) (fp : Chars) :
    List Chars × Except PostErr Unit :=
  match env.upload fp with
  | .ok _ => ([], .ok ())
  | .error e => ([escalationMsg], .error (.urlError e))

/-- `post(format)` (lines 343-357). -/
def post (env : PostEnv) (format : Chars) : List Chars × Except PostErr Unit :=
  if strLower format = chars "csv" then postUpload env env.csv_filepath
  else if strLower format = chars "pdf" then postUpload env env.pdf_filepath
  else ([], .error .badFormat)

/-! ## Concrete fixtures for the closed instance theorems -/

/-- Timestamp formatting that renders every epoch value as the empty
string: a legitimate instance of the abstract `TimeFmt`. -/
def tfNull : TimeFmt := { display := fun _ => [], sortable := fun _ => [] }

/-- A raw channel-join record sent by user U9. -/
def rawJoin : RawMsg :=
  { type? := some (chars "message")
    subtype? := some (chars "channel_join")
    user? := some (chars "U9")
    username? := none
    text? := some []
    ts := chars "1"
    files? := none }

/-- The parse of `rawJoin` at message id 1 with `tfNull` and an empty
output directory. -/
def msgJoin : Message :=
  { message_id := 1
    type? := some (chars "message")
    subtype? := some (chars "channel_join")
    text := some []
    user := chars "Slackbot"
    files := []
    file_dir := chars "message_1"
    timestamp_display := []
    timestamp := [] }

/-- An identity map resolving U1 to Jane. -/
def memJane : List (Chars × Chars) := [(chars "U1", chars "Jane")]

/-- A channel-join record that also carries a user field, U1. -/
def mJoinUser : RawMsg :=
  { type? := none
    subtype? := some (chars "channel_join")
    user? := some (chars "U1")
    username? := none
    text? := some []
    ts := chars "0"
    files? := none }

/-- A bot message with no user field and an explicit bot username. -/
def mBotRobo : RawMsg :=
  { type? := none
    subtype? := some (chars "bot_message")
    user? := none
    username? := some (chars "Robo")
    text? := some []
    ts := chars "0"
    files? := none }

/-- A bot message with neither a user field nor a username key. -/
def mBotNoName : RawMsg :=
  { type? := some (chars "message")
    subtype? := some (chars "bot_message")
    user? := none
    username? := none
    text? := some []
    ts := chars "0"
    files? := none }

/-- A plain record from user U1, no subtype. -/
def mPlainUser : RawMsg :=
  { type? := none
    subtype? := none
    user? := some (chars "U1")
    username? := none
    text? := some []
    ts := chars "0"
    files? := none }

/-- A `users_info` behaviour: U1 resolves to a profile whose real name is
the literal "Deactivated User" and whose short name is shorty; every
other lookup fails. -/
def infoDeact : Chars → Option UserData := fun u =>
  if u = chars "U1" then
    some { profile_real_name? := some (chars "Deactivated User")
           name := chars "shorty" }
  else none

/-- An output directory holding the two rendered artifacts and two flat
per-message staging directories. -/
def flatState : DirState :=
  { files := [chars "general.csv", chars "general.pdf"]
    dirs := [[chars "message_1"], [chars "message_2"]] }

/-- An output directory with a nested subdirectory below a staging
directory. -/
def nestedState : DirState :=
  { files := []
    dirs := [[chars "message_1"], [chars "message_1", chars "sub"]] }

/-- A publish environment whose every upload fails with a URLError. -/
def envFail : PostEnv :=
  { csv_filepath := chars "/tmp/general.csv"
    pdf_filepath := chars "/tmp/general.pdf"
    upload := fun _ => .error (chars "timeout") }

/-! # Proofs

First the supporting lemmas, then one theorem per claim (with separate
closed witness and counterexample theorems where a claim needs them). -/

/-! ## Decimal rendering lemmas -/

theorem charVal_digChar (d : Nat) (h : d < 10) : charVal (digChar d) = d := by
  unfold charVal digChar
  interval_cases d <;> decide

theorem digChar_ne_rparen (d : Nat) : digChar d ≠ ')' := by
  unfold digChar
  have h : d % 10 < 10 := Nat.mod_lt _ (by omega)
  set k := d % 10 with hk
  interval_cases k <;> decide

theorem charsVal_natCharsAux :
    ∀ (fuel n : Nat), n < 10 ^ fuel → charsVal (natCharsAux fuel n) = n := by
  intro fuel
  induction fuel with
  | zero =>
    intro n h
    simp only [Nat.pow_zero, Nat.lt_one_iff] at h
    subst h
    rfl
  | succ fuel ih =>
    intro n h
    simp only [natCharsAux]
    split
    · rename_i h10
      simp only [charsVal, List.foldl_cons, List.foldl_nil, Nat.mul_zero,
        Nat.zero_add]
      exact charVal_digChar n h10
    · rename_i h10
      have hlt : n / 10 < 10 ^ fuel := by
        rw [Nat.div_lt_iff_lt_mul (by omega)]
        calc n < 10 ^ (fuel + 1) := h
          _ = 10 ^ fuel * 10 := by ring
      simp only [charsVal, List.foldl_append, List.foldl_cons, List.foldl_nil]
      have h1 := ih _ hlt
      simp only [charsVal] at h1
      rw [h1, charVal_digChar _ (Nat.mod_lt _ (by omega))]
      omega

theorem charsVal_natChars (n : Nat) : charsVal (natChars n) = n :=
  charsVal_natCharsAux (n + 1) n
    (lt_of_lt_of_le (Nat.lt_pow_self (by omega) n)
      (Nat.pow_le_pow_right (by omega) (Nat.le_succ n)))

theorem natChars_injective : Function.Injective natChars :=
  Function.LeftInverse.injective charsVal_natChars

theorem natCharsAux_ne_rparen :
    ∀ (fuel n : Nat), ∀ c ∈ natCharsAux fuel n, c ≠ ')' := by
  intro fuel
  induction fuel with
  | zero => intro n c hc; simp [natCharsAux] at hc
  | succ fuel ih =>
    intro n c hc
    simp only [natCharsAux] at hc
    split at hc
    · simp only [List.mem_singleton] at hc
      subst hc
      exact digChar_ne_rparen n
    · rcases List.mem_append.mp hc with h1 | h1
      · exact ih _ c h1
      · simp only [List.mem_singleton] at h1
        subst h1
        exact digChar_ne_rparen _

theorem natChars_ne_rparen (n : Nat) : ∀ c ∈ natChars n, c ≠ ')' :=
  natCharsAux_ne_rparen (n + 1) n

/-! ## Filename candidate lemmas -/

theorem append_sep_inj {x : Char} :
    ∀ {a b u v : Chars}, (∀ c ∈ a, c ≠ x) → (∀ c ∈ b, c ≠ x) →
      a ++ x :: u = b ++ x :: v → a = b ∧ u = v := by
  intro a
  induction a with
  | nil =>
    intro b u v _ hb h
    cases b with
    | nil => simpa using h
    | cons y ys =>
      simp only [List.nil_append, List.cons_append, List.cons.injEq] at h
      exact absurd h.1.symm (hb y (by simp))
  | cons z zs ih =>
    intro b u v ha hb h
    cases b with
    | nil =>
      simp only [List.cons_append, List.nil_append, List.cons.injEq] at h
      exact absurd h.1 (ha z (by simp))
    | cons y ys =>
      simp only [List.cons_append, List.cons.injEq] at h
      obtain ⟨rfl, h2⟩ := h
      obtain ⟨h3, h4⟩ :=
        ih (fun c hc => ha c (by simp [hc])) (fun c hc => hb c (by simp [hc])) h2
      exact ⟨by rw [h3], h4⟩

theorem candWithExt_inj {split ext : Chars} {m n : Nat}
    (h : candWithExt split ext m = candWithExt split ext n) : m = n := by
  unfold candWithExt at h
  simp only [List.append_assoc] at h
  have h1 := List.append_cancel_left h
  have h2 := List.append_cancel_left h1
  have h3 : natChars m ++ ')' :: ext = natChars n ++ ')' :: ext := by
    simpa [chars] using h2
  have h4 := append_sep_inj (natChars_ne_rparen m) (natChars_ne_rparen n) h3
  exact natChars_injective h4.1

/-! ## unique_filename lemmas -/

theorem uniqueLoop_stall {split ext : Chars} {fileList : List Chars}
    (fuel counter : Nat) (filename : Chars)
    (h : filename ++ ext ∉ fileList) :
    uniqueLoop split ext fileList fuel counter filename = filename ++ ext := by
  cases fuel with
  | zero => rfl
  | succ fuel => simp [uniqueLoop, h]

theorem uniqueLoop_not_mem {split ext : Chars} {fileList : List Chars} :
    ∀ (fuel counter : Nat) (filename : Chars) (k : Nat), k < fuel →
      candWithExt split ext (counter + k) ∉ fileList →
      uniqueLoop split ext fileList fuel counter filename ∉ fileList := by
  intro fuel
  induction fuel with
  | zero =>
    intro counter filename k hk
    exact absurd hk (by omega)
  | succ fuel ih =>
    intro counter filename k hk hcand
    rw [uniqueLoop]
    split
    · cases k with
      | zero =>
        have hcand0 : candWithExt split ext counter ∉ fileList := by
          simpa using hcand
        rw [uniqueLoop_stall fuel (counter + 1) _ hcand0]
        exact hcand0
      | succ j =>
        refine ih (counter + 1) _ j (by omega) ?_
        rw [show counter + 1 + j = counter + (j + 1) by omega]
        exact hcand
    · rename_i hmem
      exact hmem

theorem exists_cand_not_mem (split ext : Chars) (fileList : List Chars)
    (counter : Nat) :
    ∃ k < fileList.length + 1,
      candWithExt split ext (counter + k) ∉ fileList := by
  by_contra hall
  push_neg at hall
  have hnodup :
      ((List.range (fileList.length + 1)).map
        (fun k => candWithExt split ext (counter + k))).Nodup := by
    refine (List.nodup_range _).map_on ?_
    intro k1 _ k2 _ h
    have := candWithExt_inj h
    omega
  have hsub :
      ((List.range (fileList.length + 1)).map
        (fun k => candWithExt split ext (counter + k))) ⊆ fileList := by
    intro x hx
    rcases List.mem_map.mp hx with ⟨k, hk, rfl⟩
    exact hall k (List.mem_range.mp hk)
  have hle := (List.subperm_of_subset hnodup hsub).length_le
  simp only [List.length_map, List.length_range] at hle
  omega

/-- C4: for every desired filename and every set of already-used
filenames, `unique_filename` returns a name not in that set (the loop
appends " (n)" before the extension for increasing n starting at 1 until
the collision is gone); in particular "a.png" against
{"a.png", "a (1).png"} yields "a (2).png". -/
theorem C4_unique_filename_fresh :
    (∀ (origFilename : Chars) (fileList : List Chars),
        unique_filename origFilename fileList ∉ fileList)
    ∧ unique_filename (chars "a.png") [chars "a.png", chars "a (1).png"]
        = chars "a (2).png" := by
  constructor
  · intro orig fl
    show uniqueLoop (splitext orig).1 (splitext orig).2 fl (fl.length + 1) 1
        (splitext orig).1 ∉ fl
    obtain ⟨k, hk, hc⟩ := exists_cand_not_mem (splitext orig).1 (splitext orig).2 fl 1
    exact uniqueLoop_not_mem (fl.length + 1) 1 (splitext orig).1 k hk hc
  · decide

/-! ## str.replace as per-occurrence substitution -/

theorem splitOnLAux_ne_nil (p : Chars) :
    ∀ (fuel : Nat) (s : Chars), splitOnLAux p fuel s ≠ [] := by
  intro fuel s
  cases s with
  | nil => cases fuel <;> simp [splitOnLAux]
  | cons c cs =>
    cases fuel with
    | zero => simp [splitOnLAux]
    | succ fuel =>
      simp only [splitOnLAux]
      split <;> simp

theorem joinWith_cons_cons (sep : Chars) (c : Char) (h : Chars)
    (t : List Chars) :
    joinWith sep ((c :: h) :: t) = c :: joinWith sep (h :: t) := by
  cases t <;> simp [joinWith]

theorem joinWith_nil_cons (sep : Chars) (l : List Chars) (h : l ≠ []) :
    joinWith sep ([] :: l) = sep ++ joinWith sep l := by
  cases l with
  | nil => exact absurd rfl h
  | cons a t => simp [joinWith]

theorem prefix_drop_eq {p : Chars} (hp : p ≠ []) {c : Char} {cs : Chars}
    (hpre : p.isPrefixOf (c :: cs)) :
    p ++ cs.drop (p.length - 1) = c :: cs := by
  obtain ⟨t, ht⟩ := List.isPrefixOf_iff_prefix.mp hpre
  cases p with
  | nil => exact absurd rfl hp
  | cons a as =>
    have hac : a = c ∧ as ++ t = cs := by simpa using ht
    have hlen : (a :: as).length - 1 = as.length := by simp
    rw [hlen, ← hac.2]
    simp [List.drop_left, hac.1]

theorem joinWith_splitOnLAux (p : Chars) (hp : p ≠ []) :
    ∀ (fuel : Nat) (s : Chars), s.length ≤ fuel →
      joinWith p (splitOnLAux p fuel s) = s := by
  intro fuel
  induction fuel with
  | zero =>
    intro s hs
    have h0 : s = [] := List.length_eq_zero.mp (by omega)
    subst h0
    simp [splitOnLAux, joinWith]
  | succ fuel ih =>
    intro s hs
    cases s with
    | nil => simp [splitOnLAux, joinWith]
    | cons c cs =>
      simp only [splitOnLAux]
      by_cases hpre : p.isPrefixOf (c :: cs)
      · rw [if_pos ⟨hp, hpre⟩]
        have hlen : (cs.drop (p.length - 1)).length ≤ fuel := by
          simp only [List.length_drop]
          simp only [List.length_cons] at hs
          omega
        rw [joinWith_nil_cons _ _ (splitOnLAux_ne_nil p fuel _), ih _ hlen,
          prefix_drop_eq hp hpre]
      · rw [if_neg (by tauto)]
        have hlen2 : cs.length ≤ fuel := by
          simp only [List.length_cons] at hs
          omega
        obtain ⟨h1, t1, hht⟩ : ∃ h1 t1, splitOnLAux p fuel cs = h1 :: t1 := by
          cases hsp : splitOnLAux p fuel cs with
          | nil => exact absurd hsp (splitOnLAux_ne_nil p fuel cs)
          | cons a b => exact ⟨a, b, rfl⟩
        rw [hht]
        show joinWith p ((c :: h1) :: t1) = c :: cs
        rw [joinWith_cons_cons, ← hht, ih cs hlen2]

theorem replaceAllAux_eq_joinWith (p r : Chars) (hp : p ≠ []) :
    ∀ (fuel : Nat) (s : Chars), s.length ≤ fuel →
      replaceAllAux p r fuel s = joinWith r (splitOnLAux p fuel s) := by
  intro fuel
  induction fuel with
  | zero =>
    intro s hs
    have h0 : s = [] := List.length_eq_zero.mp (by omega)
    subst h0
    simp [replaceAllAux, splitOnLAux, joinWith]
  | succ fuel ih =>
    intro s hs
    cases s with
    | nil => simp [replaceAllAux, splitOnLAux, joinWith]
    | cons c cs =>
      simp only [replaceAllAux, splitOnLAux]
      by_cases hpre : p.isPrefixOf (c :: cs)
      · rw [if_pos ⟨hp, hpre⟩, if_pos ⟨hp, hpre⟩]
        have hlen : (cs.drop (p.length - 1)).length ≤ fuel := by
          simp only [List.length_drop]
          simp only [List.length_cons] at hs
          omega
        rw [joinWith_nil_cons _ _ (splitOnLAux_ne_nil p fuel _), ih _ hlen]
      · rw [if_neg (by tauto), if_neg (by tauto)]
        have hlen2 : cs.length ≤ fuel := by
          simp only [List.length_cons] at hs
          omega
        obtain ⟨h1, t1, hht⟩ : ∃ h1 t1, splitOnLAux p fuel cs = h1 :: t1 := by
          cases hsp : splitOnLAux p fuel cs with
          | nil => exact absurd hsp (splitOnLAux_ne_nil p fuel cs)
          | cons a b => exact ⟨a, b, rfl⟩
        rw [hht]
        show c :: replaceAllAux p r fuel cs = joinWith r ((c :: h1) :: t1)
        rw [joinWith_cons_cons, ← hht, ← ih cs hlen2]

theorem joinWith_splitOnL (p : Chars) (hp : p ≠ []) (s : Chars) :
    joinWith p (splitOnL p s) = s :=
  joinWith_splitOnLAux p hp s.length s le_rfl

theorem replaceAll_eq_joinWith (p r : Chars) (hp : p ≠ []) (s : Chars) :
    replaceAll p r s = joinWith r (splitOnL p s) :=
  replaceAllAux_eq_joinWith p r hp s.length s le_rfl

/-! ## Mention search lemmas -/

theorem mentionAt_ne_nil {s m : Chars} (h : mentionAt s = some m) :
    m ≠ [] := by
  unfold mentionAt at h
  split at h
  · split at h
    · injection h with h2
      rw [← h2]
      simp
    · exact absurd h (by simp)
  · exact absurd h (by simp)

theorem searchMention_ne_nil : ∀ {s m : Chars},
    searchMention s = some m → m ≠ [] := by
  intro s
  induction s with
  | nil => intro m h; simp [searchMention] at h
  | cons c cs ih =>
    intro m h
    simp only [searchMention] at h
    cases hma : mentionAt (c :: cs) with
    | some x =>
      simp only [hma, Option.some.injEq] at h
      subst h
      exact mentionAt_ne_nil hma
    | none =>
      simp only [hma] at h
      exact ih h

theorem normalizeText_true (members : List (Chars × Chars)) (text : Chars) :
    normalizeText members true text =
      match searchMention (decodeSpecials text) with
      | some tok =>
        some (replaceAll tok ('@' :: mentionName members tok)
          (decodeSpecials text))
      | none => some (decodeSpecials text) := rfl

/-- C9: when mention substitution is enabled and the decoded text
contains a mention token, the normalizer returns the decoded text with
EVERY occurrence of the first-matched token replaced by "@" plus the
resolved name: the result is the decoded text split at all
non-overlapping occurrences of the token and rejoined with the
replacement, while rejoining the same split with the token itself
restores the decoded text (so the split accounts for every
occurrence). -/
theorem C9_mention_replaced_everywhere (members : List (Chars × Chars))
    (text tok : Chars)
    (h : searchMention (decodeSpecials text) = some tok) :
    normalizeText members true text
      = some (joinWith ('@' :: mentionName members tok)
          (splitOnL tok (decodeSpecials text)))
    ∧ decodeSpecials text
        = joinWith tok (splitOnL tok (decodeSpecials text)) := by
  have htok : tok ≠ [] := searchMention_ne_nil h
  constructor
  · rw [normalizeText_true, h]
    show some (replaceAll tok ('@' :: mentionName members tok)
      (decodeSpecials text)) = _
    rw [replaceAll_eq_joinWith _ _ htok]
  · exact (joinWith_splitOnL tok htok (decodeSpecials text)).symm

/-- C9 witness: in "hi <@U1> and <@U1>" with U1 resolving to Jane, the
first-matched token <@U1> is substituted at both its occurrences. -/
theorem C9_witness :
    normalizeText memJane true (chars "hi <@U1> and <@U1>")
      = some (joinWith ('@' :: mentionName memJane (chars "<@U1>"))
          (splitOnL (chars "<@U1>")
            (decodeSpecials (chars "hi <@U1> and <@U1>"))))
    ∧ decodeSpecials (chars "hi <@U1> and <@U1>")
        = joinWith (chars "<@U1>")
            (splitOnL (chars "<@U1>")
              (decodeSpecials (chars "hi <@U1> and <@U1>"))) :=
  C9_mention_replaced_everywhere memJane (chars "hi <@U1> and <@U1>")
    (chars "<@U1>") (by decide)

/-- C1: with the mention-substitution flag disabled, `_normalize_text`
falls off the end of the function and returns None rather than the
decoded text; the decode itself (which the claim describes) would have
produced "Hello 'world'". -/
theorem C1_disabled_flag_returns_none :
    normalizeText [] false (chars "Hello ’world’") = none
    ∧ decodeSpecials (chars "Hello ’world’")
        = chars "Hello " ++ apos :: chars "world" ++ [apos] := by decide

/-! ## Message parsing lemmas -/

theorem parseMessage_ok_id {members : List (Chars × Chars)} {tf : TimeFmt}
    {outputDir : Chars} {m : RawMsg} {messageId : Nat} {msg : Message}
    (h : parseMessage members tf outputDir m messageId = .ok msg) :
    msg.message_id = messageId := by
  unfold parseMessage at h
  cases hs : resolveSenderCode members m with
  | error e =>
    simp only [hs] at h
    exact Except.noConfusion h
  | ok user =>
    simp only [hs] at h
    cases ht : m.text? with
    | none =>
      simp only [ht] at h
      exact Except.noConfusion h
    | some rawText =>
      simp only [ht, Except.ok.injEq] at h
      rw [← h]

theorem parseAll_spec {members : List (Chars × Chars)} {tf : TimeFmt}
    {outputDir : Chars} :
    ∀ (l : List RawMsg) (ind : Nat) (msgs : List Message),
      parseAll members tf outputDir ind l = .ok msgs →
      msgs.length = l.length
      ∧ msgs.map (fun md => md.message_id) = List.range' ind l.length
      ∧ List.Forall₂
          (fun r md => parseMessage members tf outputDir r md.message_id = .ok md)
          l msgs := by
  intro l
  induction l with
  | nil =>
    intro ind msgs h
    simp only [parseAll, Except.ok.injEq] at h
    subst h
    exact ⟨rfl, by simp, List.Forall₂.nil⟩
  | cons r rest ih =>
    intro ind msgs h
    simp only [parseAll] at h
    cases hp : parseMessage members tf outputDir r ind with
    | error e =>
      simp only [hp] at h
      exact Except.noConfusion h
    | ok md =>
      simp only [hp] at h
      cases hrest : parseAll members tf outputDir (ind + 1) rest with
      | error e =>
        simp only [hrest] at h
        exact Except.noConfusion h
      | ok tl =>
        simp only [hrest, Except.ok.injEq] at h
        subst h
        obtain ⟨hlen, hids, hcorr⟩ := ih (ind + 1) tl hrest
        refine ⟨by simp [hlen], ?_, ?_⟩
        · have hr : List.range' ind (rest.length + 1)
              = ind :: List.range' (ind + 1) rest.length := rfl
          simp only [List.map_cons, List.length_cons, hr, hids,
            parseMessage_ok_id hp]
        · exact List.Forall₂.cons (by rw [parseMessage_ok_id hp]; exact hp) hcorr

/-- C2: whenever `_set_messages` succeeds, it yields exactly one Message
per raw record, the message ids are the contiguous sequence 1..N, and the
i-th Message is the parse of the i-th record of the REVERSED (hence
oldest-first) raw history at id i+1. -/
theorem C2_messages_count_and_ids (members : List (Chars × Chars))
    (tf : TimeFmt) (outputDir : Chars) (rawHistory : List RawMsg)
    (msgs : List Message)
    (h : setMessages members tf outputDir rawHistory = .ok msgs) :
    msgs.length = rawHistory.length
    ∧ msgs.map (fun md => md.message_id) = List.range' 1 rawHistory.length
    ∧ List.Forall₂
        (fun r md => parseMessage members tf outputDir r md.message_id = .ok md)
        rawHistory.reverse msgs := by
  obtain ⟨h1, h2, h3⟩ := parseAll_spec rawHistory.reverse 1 msgs h
  refine ⟨by simpa using h1, by simpa using h2, h3⟩

/-- C2 witness: a one-record history parses to one Message with id 1. -/
theorem C2_witness :
    setMessages [] tfNull [] [rawJoin] = .ok [msgJoin]
    ∧ [msgJoin].length = [rawJoin].length
    ∧ [msgJoin].map (fun md => md.message_id) = List.range' 1 [rawJoin].length := by
  have h : setMessages [] tfNull [] [rawJoin] = .ok [msgJoin] := by decide
  obtain ⟨h1, h2, _⟩ := C2_messages_count_and_ids [] tfNull [] [rawJoin] [msgJoin] h
  exact ⟨h, h1, h2⟩

/-! ## Sender resolution: C10 and C3 -/

/-- C10 (amended): `_parse_message` raises the no-determinable-sender
error exactly when the record has no user field and its subtype is
neither channel-join nor bot-message. (Records outside that condition
never raise THIS error, though a bot message without a `username` key or
a record without text fail with a different exception.) -/
theorem C10_no_user_error_iff (members : List (Chars × Chars)) (tf : TimeFmt)
    (outputDir : Chars) (m : RawMsg) (messageId : Nat) :
    parseMessage members tf outputDir m messageId = .error .noUser
      ↔ m.user? = none
        ∧ m.subtype? ≠ some (chars "channel_join")
        ∧ m.subtype? ≠ some (chars "bot_message") := by
  have hbc : chars "bot_message" ≠ chars "channel_join" := by decide
  by_cases h1 : m.subtype? = some (chars "channel_join")
  · cases ht : m.text? <;> simp [parseMessage, resolveSenderCode, h1, ht]
  · by_cases h2 : m.user? = none
    · by_cases h3 : m.subtype? = some (chars "bot_message")
      · cases hu : m.username? <;> cases ht : m.text? <;>
          simp [parseMessage, resolveSenderCode, h1, h2, h3, hu, ht, hbc]
      · simp [parseMessage, resolveSenderCode, h1, h2, h3]
    · cases hu : m.user? with
      | none => exact absurd hu h2
      | some rawUser =>
        cases ht : m.text? <;>
          simp [parseMessage, resolveSenderCode, h1, hu, ht]

/-- C10 counterexample: a bot message with no user field and no username
key neither parses successfully nor raises the no-determinable-sender
error — it fails with the missing-username KeyError, against the claim
that all such records parse successfully. -/
theorem C10_counterexample_missing_username :
    parseMessage [] tfNull [] mBotNoName 1 = .error .keyErrUsername
    ∧ parseMessage [] tfNull [] mBotNoName 1 ≠ .error .noUser
    ∧ ∀ msg : Message, parseMessage [] tfNull [] mBotNoName 1 ≠ .ok msg := by
  have h : parseMessage [] tfNull [] mBotNoName 1 = .error .keyErrUsername := by
    decide
  refine ⟨h, by decide, ?_⟩
  intro msg hok
  rw [h] at hok
  exact Except.noConfusion hok

/-- C3 counterexample: for a channel-join record that carries a user
field, the code resolves the sender to the fixed system name Slackbot
FIRST, while the claimed priority order (bot username, then identity-map
entry, then raw identifier, and the system name only last) would resolve
it to the identity-map entry Jane. -/
theorem C3_counterexample_channel_join_first :
    resolveSenderCode memJane mJoinUser = .ok (chars "Slackbot")
    ∧ claimSenderPriority memJane mJoinUser = some (chars "Jane")
    ∧ chars "Slackbot" ≠ chars "Jane" := by decide

/-- C3 (amended): sender resolution checks the channel-join subtype
FIRST (the fixed system name wins even when a user field or username is
present); otherwise a record with no user field and the bot-message
subtype uses the explicit bot username; otherwise a record with a user
field uses the identity-map entry, falling back to the raw identifier. -/
theorem C3_amended_sender_priority :
    (∀ (members : List (Chars × Chars)) (m : RawMsg),
        m.subtype? = some (chars "channel_join") →
        resolveSenderCode members m = .ok (chars "Slackbot"))
    ∧ (∀ (members : List (Chars × Chars)) (m : RawMsg) (u : Chars),
        m.subtype? ≠ some (chars "channel_join") → m.user? = none →
        m.subtype? = some (chars "bot_message") → m.username? = some u →
        resolveSenderCode members m = .ok u)
    ∧ (∀ (members : List (Chars × Chars)) (m : RawMsg) (rawUser : Chars),
        m.subtype? ≠ some (chars "channel_join") → m.user? = some rawUser →
        resolveSenderCode members m
          = .ok ((lookupA members rawUser).getD rawUser)) := by
  refine ⟨?_, ?_, ?_⟩
  · intro members m h1
    simp [resolveSenderCode, h1]
  · intro members m u h1 h2 h3 h4
    simp [resolveSenderCode, h1, h2, h3, h4,
      (by decide : chars "bot_message" ≠ chars "channel_join")]
  · intro members m rawUser h1 h2
    simp [resolveSenderCode, h1, h2]

/-- C3 witness: the three amended priority rules at concrete records. -/
theorem C3_amended_witness :
    resolveSenderCode memJane mJoinUser = .ok (chars "Slackbot")
    ∧ resolveSenderCode memJane mBotRobo = .ok (chars "Robo")
    ∧ resolveSenderCode memJane mPlainUser = .ok (chars "Jane") := by
  refine ⟨C3_amended_sender_priority.1 memJane mJoinUser (by decide),
    C3_amended_sender_priority.2.1 memJane mBotRobo (chars "Robo")
      (by decide) (by decide) (by decide) (by decide), ?_⟩
  have h := C3_amended_sender_priority.2.2 memJane mPlainUser (chars "U1")
    (by decide) (by decide)
  exact h.trans (by decide)

/-! ## Identity Resolver lemmas -/

theorem mem_usersOf_aux :
    ∀ (l : List RawMsg) (acc : List Chars) (u : Chars),
      u ∈ acc ∨ (∃ m ∈ l, m.user? = some u) →
      u ∈ l.foldl (fun users m =>
        match m.user? with
        | some v => if v ∈ users then users else users ++ [v]
        | none => users) acc := by
  intro l
  induction l with
  | nil =>
    intro acc u h
    rcases h with h | ⟨m, hm, _⟩
    · simpa using h
    · simp at hm
  | cons a l ih =>
    intro acc u h
    simp only [List.foldl_cons]
    apply ih
    rcases h with h | ⟨m, hm, hu⟩
    · left
      cases ha : a.user? with
      | none => simpa [ha] using h
      | some v =>
        by_cases hv : v ∈ acc <;> simp [ha, hv, h]
    · rcases List.mem_cons.mp hm with rfl | hm2
      · left
        by_cases hu2 : u ∈ acc <;> simp [hu, hu2]
      · exact Or.inr ⟨m, hm2, hu⟩

theorem lookupA_map_self (f : Chars → Chars) :
    ∀ (l : List Chars) (u : Chars), u ∈ l →
      lookupA (l.map (fun x => (x, f x))) u = some (f u) := by
  intro l
  induction l with
  | nil => intro u h; simp at h
  | cons a t ih =>
    intro u h
    simp only [List.map_cons, lookupA]
    by_cases ha : a = u
    · subst ha
      simp
    · rw [if_neg ha]
      refine ih u ?_
      rcases List.mem_cons.mp h with rfl | h2
      · exact absurd rfl ha
      · exact h2

/-- C6: every user identifier appearing in the raw history gets an entry
in the identity map, resolved exactly by the spec policy: the real
display name when present and not the literal "Deactivated User",
otherwise the short name, and the raw identifier itself when the lookup
fails — a failed lookup yields an entry rather than aborting. -/
theorem C6_identity_resolution (usersInfo : Chars → Option UserData)
    (messages : List RawMsg) (u : Chars)
    (h : ∃ m ∈ messages, m.user? = some u) :
    lookupA (setMembers usersInfo messages) u
      = some (specResolveUser usersInfo u) := by
  have hmem : u ∈ usersOf messages := by
    unfold usersOf
    exact mem_usersOf_aux messages [] u (Or.inr h)
  unfold setMembers
  rw [lookupA_map_self (resolveUser usersInfo) (usersOf messages) u hmem]
  congr 1
  unfold resolveUser specResolveUser
  cases usersInfo u with
  | none => rfl
  | some d =>
    cases d with
    | mk rn name =>
      cases rn with
      | none => rfl
      | some realName =>
        by_cases hrn : realName = chars "Deactivated User" <;> simp [hrn]

/-- C6 witness: a profile whose real name is the literal
"Deactivated User" resolves to the short name. -/
theorem C6_witness :
    lookupA (setMembers infoDeact [mPlainUser]) (chars "U1")
      = some (chars "shorty") := by
  have h := C6_identity_resolution infoDeact [mPlainUser] (chars "U1")
    ⟨mPlainUser, List.mem_cons_self _ _, rfl⟩
  exact h.trans (by decide)

/-! ## CSV Renderer lemmas -/

theorem csv_inner_foldl (m : Message) :
    ∀ (fs : List ParsedFile) (acc : List CsvRow),
      fs.foldl (fun acc2 f => acc2 ++ [csvRowOf m f.url?]) acc
        = acc ++ fs.map (fun f => csvRowOf m f.url?) := by
  intro fs
  induction fs with
  | nil => intro acc; simp
  | cons a t ih =>
    intro acc
    simp only [List.foldl_cons, List.map_cons]
    rw [ih]
    simp

theorem make_csv_rows_aux :
    ∀ (l : List Message) (acc : List CsvRow),
      l.foldl (fun csvList m =>
        if m.files.length > 0 then
          m.files.foldl (fun acc2 f => acc2 ++ [csvRowOf m f.url?]) csvList
        else csvList ++ [csvRowOf m (some [])]) acc
      = acc ++ l.flatMap (fun m =>
          if m.files = [] then [csvRowOf m (some [])]
          else m.files.map (fun f => csvRowOf m f.url?)) := by
  intro l
  induction l with
  | nil => intro acc; simp
  | cons m t ih =>
    intro acc
    simp only [List.foldl_cons, List.flatMap_cons]
    rw [ih]
    have hstep : (if m.files.length > 0 then
          m.files.foldl (fun acc2 f => acc2 ++ [csvRowOf m f.url?]) acc
        else acc ++ [csvRowOf m (some [])])
        = acc ++ (if m.files = [] then [csvRowOf m (some [])]
            else m.files.map (fun f => csvRowOf m f.url?)) := by
      by_cases hf : m.files = []
      · simp [hf]
      · rw [if_pos (List.length_pos.mpr hf), if_neg hf, csv_inner_foldl]
    rw [hstep, List.append_assoc]

/-- C5: the CSV rows are exactly the concatenation, in message order, of
one block per message — a single row with an empty file field when the
message has no attachments, and one row per attachment (repeating the
message's sender, timestamp and text, with the file field set to that
attachment's display URL) when it has any. -/
theorem C5_csv_rows_shape (messages : List Message) :
    make_csv_rows messages
      = messages.flatMap (fun m =>
          if m.files = [] then [csvRowOf m (some [])]
          else m.files.map (fun f => csvRowOf m f.url?)) := by
  unfold make_csv_rows
  rw [make_csv_rows_aux messages []]
  simp

/-! ## Cleanup lemmas -/

theorem isPrefixOf_singleton {p q : List Chars} (hp : p.length = 1)
    (hq : q.length = 1) : p.isPrefixOf q = true ↔ p = q := by
  obtain ⟨a, rfl⟩ : ∃ a, p = [a] := by
    cases p with
    | nil => simp at hp
    | cons x t =>
      cases t with
      | nil => exact ⟨x, rfl⟩
      | cons _ _ => simp at hp
  obtain ⟨b, rfl⟩ : ∃ b, q = [b] := by
    cases q with
    | nil => simp at hq
    | cons x t =>
      cases t with
      | nil => exact ⟨x, rfl⟩
      | cons _ _ => simp at hq
  simp [List.isPrefixOf]

theorem rmAll_ok :
    ∀ (l c : List (List Chars)), l.Nodup → (∀ p ∈ l, p.length = 1) →
      (∀ q ∈ c, q.length = 1) → (∀ p ∈ l, p ∈ c) →
      rmAll c l = .ok (c.filter (fun q => decide (q ∉ l))) := by
  intro l
  induction l with
  | nil =>
    intro c _ _ _ _
    simp [rmAll]
  | cons p l ih =>
    intro c hnd hl hc hsub
    have hpc : p ∈ c := hsub p (by simp)
    have hrm : rmtree p c = .ok (c.filter (fun q => !(p.isPrefixOf q))) := by
      unfold rmtree
      rw [if_pos hpc]
    simp only [rmAll, hrm]
    have hp1 : p.length = 1 := hl p (by simp)
    rw [ih (c.filter (fun q => !(p.isPrefixOf q))) (List.nodup_cons.mp hnd).2
      (fun x hx => hl x (by simp [hx]))
      (fun q hq => hc q (List.mem_of_mem_filter hq)) ?_]
    · rw [List.filter_filter]
      congr 1
      apply List.filter_congr
      intro q hq
      have hq1 : q.length = 1 := hc q hq
      by_cases hqp : q = p
      · subst hqp
        simp [isPrefixOf_singleton hp1 hq1]
      · have hpre : ¬ p.isPrefixOf q = true := by
          rw [isPrefixOf_singleton hp1 hq1]
          exact fun h => hqp h.symm
        simp [hpre, hqp]
    · intro x hx
      have hxc : x ∈ c := hsub x (by simp [hx])
      rw [List.mem_filter]
      refine ⟨hxc, ?_⟩
      have hxp : x ≠ p := by
        rintro rfl
        exact (List.nodup_cons.mp hnd).1 hx
      have hx1 : x.length = 1 := hl x (by simp [hx])
      have : ¬ p.isPrefixOf x = true := by
        rw [isPrefixOf_singleton hp1 hx1]
        exact fun h => hxp h.symm
      simp [this]

/-- C7 (amended): on an output directory state whose subdirectories hold
no nested subdirectories (the only states this pipeline produces, since
staging directories contain only downloaded files), cleanup removes
every subdirectory, leaves the directory's own files in place, and a
second invocation on the cleaned state is an error-free no-op. (On a
state WITH a nested subdirectory cleanup raises instead — see the
counterexample — because the walk lists the nested directory separately
and its rmtree runs after the parent's removal.) -/
theorem C7_cleanup_flat_ok (s : DirState) (hnd : s.dirs.Nodup)
    (h1 : ∀ p ∈ s.dirs, p.length = 1) :
    cleanup s = .ok { files := s.files, dirs := [] }
    ∧ cleanup { files := s.files, dirs := [] }
        = .ok { files := s.files, dirs := [] } := by
  constructor
  · unfold cleanup
    rw [rmAll_ok s.dirs s.dirs hnd h1 h1 (fun p hp => hp)]
    have hnil : s.dirs.filter (fun q => decide (q ∉ s.dirs)) = [] := by
      rw [List.filter_eq_nil_iff]
      intro q hq
      simp [hq]
    rw [hnil]
  · unfold cleanup
    simp [rmAll]

/-- C7 counterexample: an output directory with a staging directory that
itself contains a subdirectory makes cleanup fail — the claim asserts
removal succeeds for EVERY output directory state — because rmtree of
the nested path runs after its parent (and everything below it) was
already removed, the FileNotFoundError of `shutil.rmtree` on a missing
path. -/
theorem C7_counterexample_nested :
    cleanup nestedState = .error () := by decide

/-- C7 witness: a flat state with the two rendered artifacts and two
staging directories cleans to just the artifacts, twice. -/
theorem C7_witness :
    cleanup flatState = .ok { files := flatState.files, dirs := [] }
    ∧ cleanup { files := flatState.files, dirs := [] }
        = .ok { files := flatState.files, dirs := [] } :=
  C7_cleanup_flat_ok flatState (by decide) (by decide)

/-! ## Publisher -/

/-- C8: whenever `files_upload` fails with a URLError (for either valid
format, so for every upload-transport failure), `post` posts exactly the
fixed support-escalation message to the channel and re-raises that same
failure to its caller. (`post` performs no filesystem operation at all in
the source, so the rendered files on disk are untouched.) -/
theorem C8_publish_failure_escalates (env : PostEnv) (format : Chars)
    (e : Chars) :
    (strLower format = chars "csv" → env.upload env.csv_filepath = .error e →
      post env format = ([escalationMsg], .error (.urlError e)))
    ∧ (strLower format = chars "pdf" → env.upload env.pdf_filepath = .error e →
      post env format = ([escalationMsg], .error (.urlError e))) := by
  constructor
  · intro h1 h2
    unfold post
    rw [if_pos h1]
    unfold postUpload
    rw [h2]
  · intro h1 h2
    unfold post
    have hne : strLower format ≠ chars "csv" := by
      rw [h1]
      decide
    rw [if_neg hne, if_pos h1]
    unfold postUpload
    rw [h2]

/-- C8 witness: a failing upload environment, exercised for both
formats (the csv one through the case-insensitive format match). -/
theorem C8_witness :
    post envFail (chars "CSV") = ([escalationMsg], .error (.urlError (chars "timeout")))
    ∧ post envFail (chars "pdf") = ([escalationMsg], .error (.urlError (chars "timeout"))) :=
  ⟨(C8_publish_failure_escalates envFail (chars "CSV") (chars "timeout")).1
      (by decide) rfl,
   (C8_publish_failure_escalates envFail (chars "pdf") (chars "timeout")).2
      (by decide) rfl⟩
